import Mathlib

set_option maxHeartbeats 1000000

namespace Synapse

/-! Shallow embedding of the Synapse conversational companion.

The definitions below translate the turn-coordination core of the source
(`src/App.tsx` / `src/index.tsx`, plus the speech hooks) into executable Lean
functions.  JavaScript strings are modelled as Lean strings over their
character lists; the asynchronous turn pipeline becomes a function over an
explicit conversation state that also produces an ordered log of effects,
parameterised by the point (if any) at which the session's cancellation
signal arrives. -/

/-! String helpers embedding the JS string primitives used by the source. -/

/-- Number of characters of a string (JS String length, for ASCII content). -/
def strLen (s : String) : Nat := s.data.length

/-- Embedding of JS String.prototype.substring(n): drop the first n characters
(clamped, as in JS, when n exceeds the length). -/
def strDrop (s : String) (n : Nat) : String := String.mk (s.data.drop n)

/-- Embedding of JS String.prototype.trim(): strip leading and trailing
whitespace characters. -/
def strTrim (s : String) : String :=
  String.mk (((s.data.dropWhile Char.isWhitespace).reverse.dropWhile Char.isWhitespace).reverse)

/-- Concatenation of a list of strings in order. -/
def strConcat : List String → String
  | [] => ""
  | s :: rest => s ++ strConcat rest

/-- Embedding of JS Array.prototype.join(sep). -/
def strJoinSep (sep : String) : List String → String
  | [] => ""
  | [s] => s
  | s :: rest => s ++ sep ++ strJoinSep sep rest

/-- A string is whitespace-only when every character is whitespace (true for
the empty string, as for JS "".trim() === ""). -/
def whitespaceOnly (s : String) : Bool := s.data.all Char.isWhitespace

/-! Sentence matching: the regex work of streamAndSpeak
(src/App.tsx lines 114-118). -/

/-- A sentence-terminating mark: the character class [.!?]. -/
def isTermChar (c : Char) : Bool := c = '.' || c = '!' || c = '?'

/-- Test of the regex /[.!?]/ against the buffer (src/App.tsx line 114). -/
def hasTerminator (s : String) : Bool := s.data.any isTermChar

/-- Fuel-driven scanner for the global regex /[^.!?]+[.!?]+/g: skip any run of
terminators, take a maximal run of non-terminators, and if it is followed by a
run of terminators emit the pair as one match, continuing after it.  This is
exactly how the JS regex engine enumerates the matches, since the two
character classes are disjoint. -/
def sentMatchesAux : Nat → List Char → List (List Char)
  | 0, _ => []
  | fuel + 1, l =>
    let l1 := l.dropWhile isTermChar
    let a := l1.takeWhile (fun c => !isTermChar c)
    let l2 := l1.dropWhile (fun c => !isTermChar c)
    let b := l2.takeWhile isTermChar
    let l3 := l2.dropWhile isTermChar
    if b.isEmpty then []
    else (a ++ b) :: sentMatchesAux fuel l3

/-- Embedding of textBuffer.match(/[^.!?]+[.!?]+/g) (src/App.tsx line 115);
the empty list models the null result (no match). -/
def matchSentences (s : String) : List String :=
  (sentMatchesAux (strLen s) s.data).map String.mk

/-! Data model (src/index.tsx lines 12-51, inlined types.ts). -/

inductive Emotion where
  | NEUTRAL | JOYFUL | CALM | ANGRY | SAD | SURPRISED
deriving DecidableEq, Repr

inductive AppState where
  | IDLE | LISTENING | THINKING | SPEAKING | ERROR
deriving DecidableEq, Repr

inductive Sender where
  | user | ai
deriving DecidableEq, Repr

structure ChatMessage where
  sender : Sender
  content : String
  detectedEmotion : Option Emotion
deriving DecidableEq, Repr

structure InitialAnalysis where
  emotion : Emotion
  languageCode : String
deriving DecidableEq, Repr

/-- Outcome of one Language Intelligence call: success, or a thrown Error
carrying the user-facing message produced by handleApiError. -/
inductive LIOutcome (α : Type) where
  | ok (a : α)
  | fail (msg : String)
deriving DecidableEq, Repr

/-- The mutable React state owned by App that the Turn Coordinator touches,
plus the Speech Playback queue. -/
structure ConvState where
  appState : AppState
  emotion : Emotion
  history : List ChatMessage
  profile : List (String × String)
  speechQueue : List String
deriving DecidableEq, Repr

/-- The environment of one turn: the outcomes of the three Language
Intelligence calls and the fragments delivered by the response stream. -/
structure TurnEnv where
  analysis : LIOutcome InitialAnalysis
  streamStart : LIOutcome Unit
  chunks : List String
  extraction : LIOutcome (Option (List (String × String)))
deriving DecidableEq, Repr

/-- Observable effects of the turn pipeline, in program order. -/
inductive Effect where
  | setState (s : AppState)
  | setEmotionEff (e : Emotion)
  | appendUser (t : String)
  | abortPrev
  | callClassify (t : String)
  | appendPlaceholder (e : Emotion)
  | callStream (t : String)
  | updateLastAi (content : String)
  | enqueueSpeech (piece : String)
  | removeEmptyAi (e : Emotion)
  | speechCancel
  | callExtract (t : String)
  | mergeProfileEff (d : List (String × String))
  | setLastAiContent (m : String)
deriving DecidableEq, Repr

/-- An event: an effect, or the arrival of the external abort signal. -/
inductive EV where
  | eff (e : Effect)
  | mark
deriving DecidableEq, Repr

/-- Point at which the session's AbortController is signalled, i.e. the
suspension point of processUserRequest during which the external abort (a
second submit, or the interrupt control) lands.  atChunk i means the signal
arrives while awaiting the i-th stream fragment (i = chunks.length: while
awaiting the end of the stream). -/
inductive AbortPoint where
  | never
  | duringClassify
  | duringStreamStart
  | atChunk (i : Nat)
  | duringFlush
  | duringExtraction
deriving DecidableEq, Repr

/-- The abort points that fall inside streamAndSpeak. -/
inductive StreamAbort where
  | noAbort
  | atChunk (i : Nat)
  | duringFlush
deriving DecidableEq, Repr

/-! UserProfile operations. -/

/-- A JS object modelled as its sequence of key assignments; lookup takes the
latest assignment, exactly as object construction does. -/
def objGet (p : List (String × String)) (k : String) : Option String :=
  (p.reverse.find? (fun kv => decide (kv.fst = k))).map (fun kv => kv.snd)

/-- Embedding of the profile merge at src/App.tsx line 149:
the spread object literal assigns every entry of prev, then every entry of
the extracted details, so later keys overwrite earlier ones. -/
def spreadMerge (prev extracted : List (String × String)) : List (String × String) :=
  prev ++ extracted

/-- Embedding of the response handling of extractUserDetails
(src/index.tsx lines 234-245): the trimmed sentinel text "\x7b\x7d" yields null
(no new details); otherwise the JSON parse / object validation outcome
`parsed` is returned (a parse exception is a fail outcome, routed through
handleApiError by the source). -/
def extractUserDetails (resultText : String)
    (parsed : LIOutcome (Option (List (String × String)))) :
    LIOutcome (Option (List (String × String))) :=
  if strTrim resultText = "\x7b\x7d" then .ok none else parsed

/-! Pieces of processUserRequest (src/App.tsx lines 71-170). -/

/-- Embedding of error.message || "I seem to be having trouble connecting.
Please try again later." (src/App.tsx line 159). -/
def errorFallback (m : String) : String :=
  if m = "" then "I seem to be having trouble connecting. Please try again later." else m

/-- Mutate the last history entry's content when it is an agent message
(src/App.tsx lines 105-111 and 155-162); the Bool reports whether a mutation
happened. -/
def setLastAi (hist : List ChatMessage) (content : String) : List ChatMessage × Bool :=
  match hist.getLast? with
  | some m =>
      if m.sender = .ai then (hist.dropLast ++ [{ m with content := content }], true)
      else (hist, false)
  | none => (hist, false)

/-- Embedding of the post-abort cleanup filter (src/App.tsx line 140): keep a
message unless it is an empty agent message tagged with this turn's detected
emotion. -/
def cleanupFilter (emo : Emotion) (hist : List ChatMessage) : List ChatMessage :=
  hist.filter fun m =>
    decide (¬ (m.content = "" ∧ m.sender = .ai ∧ m.detectedEmotion = some emo))

/-- The synchronous body of the interrupt branch of handleMicClick
(src/App.tsx lines 201-206): cancel speech playback (emptying the queue),
force IDLE and NEUTRAL.  The abort of the controller itself is the mark
event recorded by the session run. -/
def interruptNow (st : ConvState) : ConvState × List EV :=
  ({ st with speechQueue := [], appState := .IDLE, emotion := .NEUTRAL },
   [.eff .speechCancel, .eff (.setState .IDLE), .eff (.setEmotionEff .NEUTRAL)])

/-- The arrival of the abort signal at a suspension point: when it comes from
the interrupt control, the synchronous interrupt effects run right then. -/
def markAct (intr : Bool) (st : ConvState) : ConvState × List EV :=
  if intr then ((interruptNow st).1, EV.mark :: (interruptNow st).2)
  else (st, [EV.mark])

/-- Embedding of the catch block (src/App.tsx lines 152-162): set ERROR and
write the failure's user-facing message into the last message when that
message is an agent message. -/
def catchBlock (st : ConvState) (m : String) : ConvState × List EV :=
  ({ st with appState := .ERROR, history := (setLastAi st.history (errorFallback m)).1 },
   .eff (.setState .ERROR) ::
     (if (setLastAi st.history (errorFallback m)).2
      then [.eff (.setLastAiContent (errorFallback m))] else []))

/-- Embedding of the finally block (src/App.tsx lines 163-169): when the
session was not aborted, reset to IDLE and NEUTRAL. -/
def finallyBlock (st : ConvState) (aborted : Bool) : ConvState × List EV :=
  if aborted then (st, [])
  else ({ st with appState := .IDLE, emotion := .NEUTRAL },
        [.eff (.setState .IDLE), .eff (.setEmotionEff .NEUTRAL)])

/-- Result of the sentence-flush step inside the stream loop. -/
structure FlushOut where
  st : ConvState
  evs : List EV
  buffer : String
deriving Repr

/-- Embedding of the sentence flush (src/App.tsx lines 114-123): when the
buffer holds a terminator and the regex matches, join the matches with a
single space, cut that many characters from the front of the buffer, and (in
voice mode only) enqueue the joined text to Speech Playback. -/
def flushStep (voice : Bool) (st : ConvState) (b : String) : FlushOut :=
  if hasTerminator b then
    match matchSentences b with
    | [] => ⟨st, [], b⟩
    | ss =>
      let sentenceToSpeak := strJoinSep (" ") ss
      let b2 := strDrop b (strLen sentenceToSpeak)
      if voice then
        ⟨{ st with speechQueue := st.speechQueue ++ [sentenceToSpeak] },
         [.eff (.enqueueSpeech sentenceToSpeak)], b2⟩
      else ⟨st, [], b2⟩
  else ⟨st, [], b⟩

/-- The buffer left by the sentence flush, as a pure function of the buffer:
the buffer update of src/App.tsx line 118 happens whether or not the piece is
spoken. -/
def flushBuf (b : String) : String :=
  if hasTerminator b then
    match matchSentences b with
    | [] => b
    | ss => strDrop b (strLen (strJoinSep (" ") ss))
  else b

/-- Result of running streamAndSpeak (or its inner loop). -/
structure StreamRes where
  st : ConvState
  evs : List EV
  full : String
  buffer : String
  aborted : Bool
deriving Repr

/-- The for-await loop of streamAndSpeak (src/App.tsx lines 98-124).
abortIn counts the loop-top cancellation checks remaining until the abort
signal is observed (the check of line 99 returns immediately once the signal
has arrived); none means the signal never arrives inside the loop. -/
def streamLoop (voice intr : Bool) :
    Option Nat → List String → ConvState → String → String → StreamRes
  | abortIn, [], st, full, buf =>
    if abortIn = some 0 then
      ⟨(markAct intr st).1, (markAct intr st).2, full, buf, true⟩
    else ⟨st, [], full, buf, false⟩
  | abortIn, c :: rest, st, full, buf =>
    if abortIn = some 0 then
      ⟨(markAct intr st).1, (markAct intr st).2, full, buf, true⟩
    else
      let full1 := full ++ c
      let e1 : List EV :=
        if (setLastAi st.history full1).2 then [.eff (.updateLastAi full1)] else []
      let fo := flushStep voice { st with history := (setLastAi st.history full1).1 } (buf ++ c)
      let r := streamLoop voice intr (abortIn.map Nat.pred) rest fo.st full1 fo.buffer
      ⟨r.st, e1 ++ fo.evs ++ r.evs, r.full, r.buffer, r.aborted⟩

/-- Embedding of streamAndSpeak (src/App.tsx lines 96-134): the fragment loop
followed by the trailing flush of the unspoken buffer, which is awaited via
its completion callback.  ab0 records a cancellation signalled before the
loop started (the first loop check then returns at once). -/
def streamAndSpeak (voice intr ab0 : Bool) (sab : StreamAbort) (chunks : List String)
    (st : ConvState) : StreamRes :=
  if ab0 then ⟨st, [], "", "", true⟩
  else
    let abortIn : Option Nat := match sab with | .atChunk i => some i | _ => none
    let r := streamLoop voice intr abortIn chunks st ("") ("")
    if strTrim r.buffer != "" && !r.aborted && voice then
      let piece := strTrim r.buffer
      let st2 := { r.st with speechQueue := r.st.speechQueue ++ [piece] }
      if sab = .duringFlush then
        ⟨(markAct intr st2).1, r.evs ++ [.eff (.enqueueSpeech piece)] ++ (markAct intr st2).2,
         r.full, r.buffer, true⟩
      else ⟨st2, r.evs ++ [.eff (.enqueueSpeech piece)], r.full, r.buffer, r.aborted⟩
    else r

/-- Embedding of the tail of processUserRequest (src/App.tsx lines 138-169):
the post-stream cancellation check and cleanup, the fact-extraction call and
profile merge, and the catch / finally blocks guarding them.  ext is the
outcome of the extractUserDetails call. -/
def postStream (userText : String) (ext : LIOutcome (Option (List (String × String))))
    (ap : AbortPoint) (intr : Bool) (emo : Emotion) (r : StreamRes) : ConvState × List EV :=
  if r.aborted then
    ({ r.st with history := cleanupFilter emo r.st.history,
                 appState := .IDLE, emotion := .NEUTRAL },
     [.eff (.removeEmptyAi emo), .eff (.setState .IDLE), .eff (.setEmotionEff .NEUTRAL)])
  else
    let st6 : ConvState := if ap = .duringExtraction then (markAct intr r.st).1 else r.st
    let evM3 : List EV := if ap = .duringExtraction then (markAct intr r.st).2 else []
    let ab3 : Bool := ap = .duringExtraction
    match ext with
    | .fail m =>
        ((finallyBlock (catchBlock st6 m).1 ab3).1,
         [.eff (.callExtract userText)] ++ evM3 ++ (catchBlock st6 m).2
           ++ (finallyBlock (catchBlock st6 m).1 ab3).2)
    | .ok od =>
        let st7 : ConvState :=
          match od with
          | some d =>
              if d = ([] : List (String × String)) then st6
              else { st6 with profile := spreadMerge st6.profile d }
          | none => st6
        let evH : List EV :=
          match od with
          | some d => if d = ([] : List (String × String)) then [] else [.eff (.mergeProfileEff d)]
          | none => []
        ((finallyBlock st7 ab3).1,
         [.eff (.callExtract userText)] ++ evM3 ++ evH ++ (finallyBlock st7 ab3).2)

/-- Embedding of processUserRequest (src/App.tsx lines 71-170).  The function
returns the final conversation state together with the ordered event log of
the session; ap says at which suspension point (if any) the session's abort
signal arrives, and intr whether that signal comes from the interrupt control
(which also runs its synchronous effects right then). -/
def processUserRequest (userText : String) (env : TurnEnv) (voice : Bool)
    (ap : AbortPoint) (intr : Bool) (st : ConvState) : ConvState × List EV :=
  if userText = "" then (st, [])
  else
    let st1 : ConvState :=
      { st with appState := .THINKING,
                history := st.history ++ [⟨.user, userText, none⟩] }
    let evA : List EV :=
      [.eff (.setState .THINKING), .eff (.appendUser userText), .eff .abortPrev,
       .eff (.callClassify userText)]
    let st2 : ConvState := if ap = .duringClassify then (markAct intr st1).1 else st1
    let evM1 : List EV := if ap = .duringClassify then (markAct intr st1).2 else []
    let ab1 : Bool := ap = .duringClassify
    match env.analysis with
    | .fail m =>
        ((finallyBlock (catchBlock st2 m).1 ab1).1,
         evA ++ evM1 ++ (catchBlock st2 m).2 ++ (finallyBlock (catchBlock st2 m).1 ab1).2)
    | .ok a =>
        let st3 : ConvState :=
          { st2 with emotion := a.emotion,
                     history := st2.history ++ [⟨.ai, "", some a.emotion⟩] }
        let evD : List EV :=
          [.eff (.setEmotionEff a.emotion), .eff (.appendPlaceholder a.emotion),
           .eff (.callStream userText)]
        let st4 : ConvState := if ap = .duringStreamStart then (markAct intr st3).1 else st3
        let evM2 : List EV := if ap = .duringStreamStart then (markAct intr st3).2 else []
        let ab2 : Bool := if ap = .duringStreamStart then true else ab1
        match env.streamStart with
        | .fail m =>
            ((finallyBlock (catchBlock st4 m).1 ab2).1,
             evA ++ evM1 ++ evD ++ evM2 ++ (catchBlock st4 m).2
               ++ (finallyBlock (catchBlock st4 m).1 ab2).2)
        | .ok _ =>
            let sab : StreamAbort :=
              match ap with
              | .atChunk i => .atChunk i
              | .duringFlush => .duringFlush
              | _ => .noAbort
            let r := streamAndSpeak voice intr ab2 sab env.chunks { st4 with appState := .SPEAKING }
            let pr := postStream userText env.extraction ap intr a.emotion r
            (pr.1, evA ++ evM1 ++ evD ++ evM2 ++ [.eff (.setState .SPEAKING)] ++ r.evs ++ pr.2)

/-! Speech Capture (src/index.tsx lines 280-391 / src/unnamed/part_003). -/

/-- The internal state of the speech-recognition hook: the accumulated final
transcript of the pending turn, the shown interim text, and whether a
recognition instance is active. -/
structure CaptureState where
  turnTranscript : String
  interimText : String
  active : Bool
deriving DecidableEq, Repr

/-- Embedding of processTurn (src/index.tsx lines 293-299): emit the trimmed
accumulated transcript when it is non-empty, then reset the accumulator and
the interim text. -/
def processTurn (st : CaptureState) : Option String × CaptureState :=
  (if strTrim st.turnTranscript ≠ "" then some (strTrim st.turnTranscript) else none,
   { st with turnTranscript := "", interimText := "" })

/-- Embedding of stopListening (src/index.tsx lines 301-311): when a
recognition instance is active, flush the pending text through processTurn
and stop the instance (which ends the stream). -/
def stopListening (st : CaptureState) : Option String × CaptureState :=
  if st.active then ((processTurn st).1, { (processTurn st).2 with active := false })
  else (none, st)

/-- Embedding of the state reset of startListening (src/index.tsx lines
326-338): a no-op while already listening, otherwise clear the accumulator
and interim text and activate a fresh recognition instance. -/
def startListening (st : CaptureState) : CaptureState :=
  if st.active then st
  else { turnTranscript := "", interimText := "", active := true }

/-! Speech Playback (src/hooks/useSpeechSynthesis.ts). -/

/-- The utterance built by speak, recording whether a completion callback was
supplied; the voice, pitch and rate fields play no role in callback
delivery and are omitted. -/
structure Utterance where
  text : String
  hasOnEnd : Bool
deriving DecidableEq, Repr

/-- How an enqueued utterance terminates. -/
inductive UtteranceEvent where
  | ended | errored
deriving DecidableEq, Repr

/-- Embedding of speak (src/hooks/useSpeechSynthesis.ts lines 35-91): the
guard of line 38 returns without constructing an utterance when the engine is
absent or the text is empty; otherwise the utterance is enqueued with the
onend and onerror handlers of lines 71-88 attached. -/
def speak (synthAvailable : Bool) (text : String) (hasOnEnd : Bool) : Option Utterance :=
  if !synthAvailable || text = "" then none
  else some ⟨text, hasOnEnd⟩

/-- Number of times the supplied completion callback runs when the utterance
terminates: the onend handler (lines 71-79) and the onerror handler (lines
80-88) each invoke it once when present. -/
def onEndInvocations (u : Utterance) (ev : UtteranceEvent) : Nat :=
  match ev with
  | .ended => if u.hasOnEnd then 1 else 0
  | .errored => if u.hasOnEnd then 1 else 0

/-- Number of callback invocations a whole speak call can ever deliver for a
given termination event: zero when the guard returned early (no utterance was
enqueued, so neither handler can ever fire). -/
def speakCallbackRuns (synthAvailable : Bool) (text : String) (hasOnEnd : Bool)
    (ev : UtteranceEvent) : Nat :=
  match speak synthAvailable text hasOnEnd with
  | some u => onEndInvocations u ev
  | none => 0

/-! The interrupt control (src/App.tsx lines 197-217). -/

/-- Embedding of the isProcessing derivation (src/App.tsx line 197). -/
def isProcessingState (s : AppState) : Bool :=
  !(s = .IDLE || s = .ERROR || s = .LISTENING)

/-- Embedding of handleMicClick (src/App.tsx lines 199-217): while the
coordinator is THINKING or SPEAKING the button aborts the active session,
cancels playback and forces IDLE / NEUTRAL; otherwise it toggles listening. -/
def handleMicClick (st : ConvState) (cap : CaptureState) :
    ConvState × CaptureState × List EV :=
  if isProcessingState st.appState then
    ((interruptNow st).1, cap, (interruptNow st).2)
  else if cap.active then
    (st, (stopListening cap).2, [])
  else
    ({ st with appState := .LISTENING }, startListening cap, [])

/-! Helpers for stating the claims. -/

/-- The pieces enqueued to Speech Playback, in enqueue order. -/
def spokenOf (evs : List EV) : List String :=
  evs.filterMap fun e =>
    match e with
    | .eff (.enqueueSpeech s) => some s
    | _ => none

/-- Whether an event is the abort signal. -/
def isMark : EV → Bool
  | .mark => true
  | .eff _ => false

/-- The events strictly after the abort signal. -/
def afterMark (evs : List EV) : List EV :=
  (evs.dropWhile (fun e => !isMark e)).tail

/-- The events strictly before the abort signal (the whole log when no signal
arrived). -/
def beforeMark (evs : List EV) : List EV :=
  evs.takeWhile (fun e => !isMark e)

/-- No transcript-feeding speech enqueue, fact-extraction call or profile
merge occurs in the list. -/
def sessionEffectFree (evs : List EV) : Bool :=
  evs.all fun e =>
    match e with
    | .eff (.enqueueSpeech _) => false
    | .eff (.callExtract _) => false
    | .eff (.mergeProfileEff _) => false
    | _ => true

/-- No fact-extraction call occurs in the list. -/
def noExtractCall (evs : List EV) : Bool :=
  evs.all fun e =>
    match e with
    | .eff (.callExtract _) => false
    | _ => true

/-- A flush over this buffer is exact: either nothing is matched, or a single
sentence group is matched and it sits at the very front of the buffer. -/
def flushExact (b : String) : Bool :=
  match matchSentences b with
  | [] => true
  | [s] => s.data.isPrefixOf b.data
  | _ => false

/-- Every flush performed while consuming the fragments, starting from this
buffer, is exact. -/
def flushSafe : String → List String → Bool
  | _, [] => true
  | buf, c :: rest => flushExact (buf ++ c) && flushSafe (flushBuf (buf ++ c)) rest

/-- The idle initial conversation state. -/
def initState : ConvState :=
  { appState := .IDLE, emotion := .NEUTRAL, history := [], profile := [], speechQueue := [] }

/-! Basic facts about the string helpers. -/

theorem strData_append (s t : String) : (s ++ t).data = s.data ++ t.data := by
  cases s; cases t; rfl

theorem strExt {s t : String} (h : s.data = t.data) : s = t := by
  cases s; cases t; exact congrArg String.mk h

theorem strNil_append (s : String) : "" ++ s = s :=
  strExt (by simp [strData_append])

theorem strAppend_nil (s : String) : s ++ "" = s :=
  strExt (by simp [strData_append])

theorem strAppend_assoc (a b c : String) : a ++ b ++ c = a ++ (b ++ c) :=
  strExt (by simp [strData_append])

theorem strConcat_append (a b : List String) :
    strConcat (a ++ b) = strConcat a ++ strConcat b := by
  induction a with
  | nil => simp [strConcat, strNil_append]
  | cons s t ih => simp [strConcat, ih, strAppend_assoc]

theorem strMk_eq_empty_iff (l : List Char) : String.mk l = "" ↔ l = [] := by
  constructor
  · intro h
    have h2 : (String.mk l).data = ("" : String).data := by rw [h]
    simpa using h2
  · intro h
    subst h
    rfl

theorem dropWhile_exists_false {p : Char → Bool} {l : List Char}
    (h : l.dropWhile p ≠ []) : ∃ x ∈ l.dropWhile p, p x = false := by
  induction l with
  | nil => simp at h
  | cons a t ih =>
    by_cases hp : p a
    · rw [List.dropWhile_cons_of_pos hp] at h ⊢
      exact ih h
    · rw [List.dropWhile_cons_of_neg hp]
      exact ⟨a, List.mem_cons_self a _, by simpa using hp⟩

theorem whitespaceOnly_strTrim_false {s : String} (h : strTrim s ≠ "") :
    whitespaceOnly (strTrim s) = false := by
  have hne : ((s.data.dropWhile Char.isWhitespace).reverse.dropWhile Char.isWhitespace) ≠ [] := by
    intro he
    apply h
    unfold strTrim
    rw [he]
    rfl
  obtain ⟨x, hx, hpx⟩ := dropWhile_exists_false hne
  have hxr : x ∈ (strTrim s).data := by
    unfold strTrim
    simpa using List.mem_reverse.mpr hx
  cases hall : whitespaceOnly (strTrim s) with
  | false => rfl
  | true =>
    unfold whitespaceOnly at hall
    have hw := List.all_eq_true.mp hall x hxr
    rw [hw] at hpx
    exact absurd hpx (by simp)

/-! Preservation of the profile by the turn pipeline outside the merge. -/

theorem markAct_profile (intr : Bool) (st : ConvState) :
    (markAct intr st).1.profile = st.profile := by
  unfold markAct interruptNow
  split <;> rfl

theorem flushStep_profile (voice : Bool) (st : ConvState) (b : String) :
    (flushStep voice st b).st.profile = st.profile := by
  unfold flushStep
  split
  · split
    · rfl
    · split <;> rfl
  · rfl

theorem streamLoop_profile (voice intr : Bool) (chunks : List String) :
    ∀ (ab : Option Nat) (st : ConvState) (full buf : String),
    (streamLoop voice intr ab chunks st full buf).st.profile = st.profile := by
  induction chunks with
  | nil =>
    intro ab st full buf
    unfold streamLoop
    split
    · exact markAct_profile intr st
    · rfl
  | cons c rest ih =>
    intro ab st full buf
    unfold streamLoop
    split
    · exact markAct_profile intr st
    · dsimp only
      rw [ih, flushStep_profile]

theorem streamAndSpeak_profile (voice intr ab0 : Bool) (sab : StreamAbort)
    (chunks : List String) (st : ConvState) :
    (streamAndSpeak voice intr ab0 sab chunks st).st.profile = st.profile := by
  unfold streamAndSpeak
  split
  · rfl
  · dsimp only
    split
    · split <;> simp [markAct_profile, streamLoop_profile]
    · exact streamLoop_profile voice intr chunks _ st ("") ("")

theorem catchBlock_profile (st : ConvState) (m : String) :
    (catchBlock st m).1.profile = st.profile := rfl

theorem finallyBlock_profile (st : ConvState) (b : Bool) :
    (finallyBlock st b).1.profile = st.profile := by
  unfold finallyBlock
  split <;> rfl

theorem postStream_profile (u : String) (ext : LIOutcome (Option (List (String × String))))
    (ap : AbortPoint) (intr : Bool) (emo : Emotion) (r : StreamRes)
    (hext : ∀ d, ext = .ok (some d) → d = []) :
    (postStream u ext ap intr emo r).1.profile = r.st.profile := by
  unfold postStream
  split
  · rfl
  · dsimp only
    cases hE : ext with
    | fail m =>
        rw [finallyBlock_profile, catchBlock_profile]
        by_cases hap3 : ap = .duringExtraction <;> simp [hap3, markAct_profile]
    | ok od =>
        cases od with
        | none =>
            rw [finallyBlock_profile]
            by_cases hap3 : ap = .duringExtraction <;> simp [hap3, markAct_profile]
        | some d =>
            have hd : d = [] := hext d hE
            subst hd
            rw [finallyBlock_profile]
            by_cases hap3 : ap = .duringExtraction <;> simp [hap3, markAct_profile]

theorem processUserRequest_profile (u : String) (env : TurnEnv) (voice : Bool)
    (ap : AbortPoint) (intr : Bool) (st : ConvState)
    (hext : ∀ d, env.extraction = .ok (some d) → d = []) :
    (processUserRequest u env voice ap intr st).1.profile = st.profile := by
  unfold processUserRequest
  by_cases hu : u = ""
  · simp [hu]
  · rw [if_neg hu]
    dsimp only
    cases hA : env.analysis with
    | fail m =>
        rw [finallyBlock_profile, catchBlock_profile]
        by_cases hap : ap = .duringClassify <;> simp [hap, markAct_profile]
    | ok a =>
        dsimp only
        cases hS : env.streamStart with
        | fail m =>
            rw [finallyBlock_profile, catchBlock_profile]
            by_cases hap2 : ap = .duringStreamStart <;>
              by_cases hap : ap = .duringClassify <;>
              simp [hap, hap2, markAct_profile]
        | ok uu =>
            dsimp only
            rw [postStream_profile u env.extraction ap intr a.emotion _ hext]
            rw [streamAndSpeak_profile]
            dsimp only
            by_cases hap2 : ap = .duringStreamStart <;>
              by_cases hap : ap = .duringClassify <;>
              simp [hap, hap2, markAct_profile]

/-! C10: submitting the empty string. -/

/-- C10: calling processUserRequest with the empty string is a complete no-op:
the conversation state is unchanged and no effect at all is produced — no
user Turn append, no state or emotion change, no abort of a prior session and
no Language Intelligence call. -/
theorem c10_empty_submit_noop (env : TurnEnv) (voice : Bool) (ap : AbortPoint)
    (intr : Bool) (st : ConvState) :
    processUserRequest ("") env voice ap intr st = (st, []) := by
  simp [processUserRequest]

/-! C9: the speak completion callback. -/

/-- C9 counterexample: a speak call with an empty text and a supplied
completion callback returns at the guard of line 38 without constructing an
utterance, so no termination event can ever run the callback — the
invocation count is 0 for both natural end and error, and a caller awaiting
the callback is left unresolved, contradicting the claim that every speak
call supplying a callback has it invoked on end or on error. -/
theorem c9_counterexample :
    speak true ("") true = none ∧
    speakCallbackRuns true ("") true .ended = 0 ∧
    speakCallbackRuns true ("") true .errored = 0 := by
  refine ⟨rfl, rfl, rfl⟩

/-- C9 amended: for every speak call whose text is non-empty, made while the
synthesis engine is available, an utterance is enqueued and the supplied
completion callback is invoked exactly once whether the utterance ends
naturally or errors; a call with empty text (or without an engine) enqueues
nothing and can never invoke the callback. -/
theorem c9_speak_callback_amended (text : String) (ev : UtteranceEvent)
    (h : text ≠ "") :
    speak true text true = some ⟨text, true⟩ ∧
    speakCallbackRuns true text true ev = 1 := by
  constructor
  · simp [speak, h]
  · cases ev <;> simp [speakCallbackRuns, speak, h, onEndInvocations]

/-- C9 witness: the amended theorem applied at a concrete non-empty text. -/
theorem c9_speak_callback_amended_witness :
    speak true ("hello") true = some ⟨"hello", true⟩ ∧
    speakCallbackRuns true ("hello") true .errored = 1 :=
  c9_speak_callback_amended ("hello") .errored (by decide)

/-! C7: Speech Capture finalized-turn guarantees. -/

/-- C7: Speech Capture never emits a finalized-turn event whose content is
whitespace-only — processTurn only fires the turn callback when the trimmed
accumulated transcript is non-empty, and what it emits is that trimmed text —
and stopListening, while a recognition instance is active, flushes the
pending accumulated text through processTurn as one final finalized-turn
event and ends the stream (instance deactivated, accumulator cleared). -/
theorem c7_capture_guarantees (st : CaptureState) :
    (∀ e, (processTurn st).1 = some e → whitespaceOnly e = false) ∧
    (st.active = true →
      (stopListening st).1 = (processTurn st).1 ∧
      (stopListening st).2.active = false ∧
      (stopListening st).2.turnTranscript = "") := by
  constructor
  · intro e he
    unfold processTurn at he
    dsimp only at he
    by_cases h : strTrim st.turnTranscript ≠ ""
    · rw [if_pos h] at he
      have he2 : strTrim st.turnTranscript = e := Option.some.inj he
      rw [← he2]
      exact whitespaceOnly_strTrim_false h
    · rw [if_neg h] at he
      exact absurd he (by simp)
  · intro ha
    unfold stopListening
    rw [if_pos ha]
    exact ⟨rfl, rfl, rfl⟩

/-- C7 witness: the guarantees applied at a concrete active capture state
whose accumulator holds padded text. -/
theorem c7_capture_guarantees_witness :
    whitespaceOnly ("hi") = false ∧
    (stopListening ⟨"  hi  ", "x", true⟩).1 = some ("hi") ∧
    (stopListening ⟨"  hi  ", "x", true⟩).2.active = false := by
  have h := c7_capture_guarantees ⟨"  hi  ", "x", true⟩
  refine ⟨h.1 ("hi") (by decide), ?_, (h.2 rfl).2.1⟩
  rw [(h.2 rfl).1]
  decide

/-! C6: profile merge and the sentinel extraction result. -/

/-- C6: the profile merge is per-key last-write-wins — extracting the key
name as Ann and later as Anne leaves the profile reading Anne, and more
generally any key present in the extracted details reads back with the
extracted value after the merge (new keys added, existing keys overwritten) —
and the sentinel empty-object extraction response (trimmed text equal to the
empty JSON object) makes extractUserDetails return null, so the turn leaves
UserProfile unchanged. -/
theorem c6_profile_merge :
    (∀ (prev : List (String × String)) (k v v1 : String),
      objGet (spreadMerge (spreadMerge prev [(k, v)]) [(k, v1)]) k = some v1) ∧
    (∀ (prev d : List (String × String)) (k v : String),
      objGet d k = some v → objGet (spreadMerge prev d) k = some v) ∧
    (∀ (u : String) (a : InitialAnalysis) (chunks : List String)
      (resultText : String) (parsed : LIOutcome (Option (List (String × String))))
      (voice intr : Bool) (st : ConvState),
      u ≠ "" → strTrim resultText = "\x7b\x7d" →
      (processUserRequest u ⟨.ok a, .ok (), chunks, extractUserDetails resultText parsed⟩
        voice .never intr st).1.profile = st.profile) := by
  refine ⟨?_, ?_, ?_⟩
  · intro prev k v v1
    simp [spreadMerge, objGet, List.reverse_append]
  · intro prev d k v h
    unfold objGet spreadMerge at *
    rw [List.reverse_append, List.find?_append]
    obtain ⟨kv, hkv, hsnd⟩ := Option.map_eq_some'.mp h
    rw [hkv]
    simp [hsnd]
  · intro u a chunks resultText parsed voice intr st hu hsent
    apply processUserRequest_profile
    intro d hd
    simp only [extractUserDetails, hsent, if_pos, ite_true] at hd
    exact absurd hd (by simp)

/-! C1: sentence segmentation. -/

theorem spokenOf_append (a b : List EV) : spokenOf (a ++ b) = spokenOf a ++ spokenOf b := by
  unfold spokenOf
  exact List.filterMap_append a b _

theorem streamLoop_nil_none (voice intr : Bool) (st : ConvState) (full buf : String) :
    streamLoop voice intr none [] st full buf = ⟨st, [], full, buf, false⟩ := by
  conv_lhs => simp only [streamLoop]
  rw [if_neg (by simp)]

theorem streamLoop_cons_none (voice intr : Bool) (c : String) (rest : List String)
    (st : ConvState) (full buf : String) :
    streamLoop voice intr none (c :: rest) st full buf =
      (let full1 := full ++ c
       let e1 : List EV :=
         if (setLastAi st.history full1).2 then [.eff (.updateLastAi full1)] else []
       let fo := flushStep voice { st with history := (setLastAi st.history full1).1 } (buf ++ c)
       let r := streamLoop voice intr none rest fo.st full1 fo.buffer
       ⟨r.st, e1 ++ fo.evs ++ r.evs, r.full, r.buffer, r.aborted⟩) := by
  conv_lhs => simp only [streamLoop]
  rw [if_neg (by simp)]
  rfl

theorem streamLoop_full_none (voice intr : Bool) (chunks : List String) :
    ∀ (st : ConvState) (full buf : String),
    (streamLoop voice intr none chunks st full buf).full = full ++ strConcat chunks := by
  induction chunks with
  | nil =>
      intro st full buf
      rw [streamLoop_nil_none]
      simp [strConcat, strAppend_nil]
  | cons c rest ih =>
      intro st full buf
      rw [streamLoop_cons_none]
      dsimp only
      rw [ih]
      simp [strConcat, strAppend_assoc]

theorem streamLoop_aborted_none (voice intr : Bool) (chunks : List String) :
    ∀ (st : ConvState) (full buf : String),
    (streamLoop voice intr none chunks st full buf).aborted = false := by
  induction chunks with
  | nil =>
      intro st full buf
      rw [streamLoop_nil_none]
  | cons c rest ih =>
      intro st full buf
      rw [streamLoop_cons_none]
      dsimp only
      rw [ih]

theorem flushStep_buffer (voice : Bool) (st : ConvState) (b : String) :
    (flushStep voice st b).buffer = flushBuf b := by
  unfold flushStep flushBuf
  by_cases hT : hasTerminator b = true
  · rw [if_pos hT, if_pos hT]
    cases matchSentences b with
    | nil => rfl
    | cons s ss =>
        dsimp only
        split <;> rfl
  · rw [if_neg hT, if_neg hT]

theorem flushStep_spec (st : ConvState) (b : String) (hex : flushExact b = true) :
    (spokenOf (flushStep true st b).evs = [] ∧ (flushStep true st b).buffer = b) ∨
    (∃ s t, matchSentences b = [s] ∧ b = s ++ t ∧
      spokenOf (flushStep true st b).evs = [s] ∧ (flushStep true st b).buffer = t) := by
  unfold flushExact at hex
  unfold flushStep
  by_cases hT : hasTerminator b = true
  · rw [if_pos hT]
    cases hm : matchSentences b with
    | nil => exact Or.inl ⟨rfl, rfl⟩
    | cons s ss =>
        cases ss with
        | nil =>
            rw [hm] at hex
            obtain ⟨t, ht⟩ := List.isPrefixOf_iff_prefix.mp hex
            refine Or.inr ⟨s, String.mk t, rfl, ?_, rfl, ?_⟩
            · apply strExt
              rw [strData_append]
              exact ht.symm
            · show strDrop b (strLen (strJoinSep (" ") [s])) = String.mk t
              unfold strDrop
              congr 1
              have hlen : strLen (strJoinSep (" ") [s]) = s.data.length := rfl
              rw [hlen, ← ht, List.drop_left]
        | cons s2 ss2 =>
            rw [hm] at hex
            simp at hex
  · rw [if_neg hT]
    exact Or.inl ⟨rfl, rfl⟩

theorem streamLoop_exact (intr : Bool) (chunks : List String) :
    ∀ (st : ConvState) (full buf : String),
    flushSafe buf chunks = true →
    strConcat (spokenOf (streamLoop true intr none chunks st full buf).evs)
      ++ (streamLoop true intr none chunks st full buf).buffer
      = buf ++ strConcat chunks := by
  induction chunks with
  | nil =>
      intro st full buf hsafe
      rw [streamLoop_nil_none]
      simp [spokenOf, strConcat, strNil_append, strAppend_nil]
  | cons c rest ih =>
      intro st full buf hsafe
      unfold flushSafe at hsafe
      rw [Bool.and_eq_true] at hsafe
      obtain ⟨h1, h2⟩ := hsafe
      rw [streamLoop_cons_none]
      dsimp only
      rw [spokenOf_append, spokenOf_append]
      have he1 : spokenOf
          (if (setLastAi st.history (full ++ c)).2
           then [.eff (.updateLastAi (full ++ c))] else []) = [] := by
        split <;> rfl
      rw [he1, List.nil_append]
      have hfb := flushStep_buffer true
        { st with history := (setLastAi st.history (full ++ c)).1 } (buf ++ c)
      cases flushStep_spec
          { st with history := (setLastAi st.history (full ++ c)).1 } (buf ++ c) h1 with
      | inl hl =>
          obtain ⟨hevs, hbuf⟩ := hl
          have h2a : flushSafe (flushStep true
              { st with history := (setLastAi st.history (full ++ c)).1 } (buf ++ c)).buffer
              rest = true := by
            rw [hfb]; exact h2
          rw [hevs, List.nil_append]
          rw [ih _ (full ++ c) _ h2a, hbuf]
          simp [strConcat, strAppend_assoc]
      | inr hr =>
          obtain ⟨s, t, hm, hbc, hevs, hbuf⟩ := hr
          have h2a : flushSafe (flushStep true
              { st with history := (setLastAi st.history (full ++ c)).1 } (buf ++ c)).buffer
              rest = true := by
            rw [hfb]; exact h2
          rw [hevs]
          rw [strConcat_append]
          rw [strAppend_assoc, ih _ (full ++ c) _ h2a, hbuf]
          rw [show strConcat [s] = s from by simp [strConcat, strAppend_nil]]
          rw [← strAppend_assoc, ← hbc]
          simp [strConcat, strAppend_assoc]

/-- C1 counterexample: with the single streamed fragment Hi.Yo. (two
sentences arriving in one chunk), the regex matches both sentences and
Array.join inserts a space between them, so the one piece enqueued to Speech
Playback is recorded with an extra space: concatenating every enqueued piece
(there is no trailing flush, the buffer is empty) gives a string different
from the full streamed response text — segmentation is not lossless as
claimed. -/
theorem c1_counterexample :
    spokenOf (streamAndSpeak true false false .noAbort (["Hi.Yo."]) initState).evs
      = [("Hi. Yo.")] ∧
    (streamAndSpeak true false false .noAbort (["Hi.Yo."]) initState).full = "Hi.Yo." ∧
    strConcat (spokenOf (streamAndSpeak true false false .noAbort (["Hi.Yo."]) initState).evs)
      ≠ (streamAndSpeak true false false .noAbort (["Hi.Yo."]) initState).full := by
  refine ⟨by decide, by decide, by decide⟩

/-- C1 amended: segmentation is lossless and order-preserving provided every
sentence flush is exact — each buffer inspected during the stream either
matches no sentence group or matches exactly one, sitting at the very front
of the buffer (so Array.join inserts no space and the substring cut loses no
characters) — and the buffer left at stream end carries no leading or
trailing whitespace (so the trailing flush's trim drops nothing): then
concatenating every piece enqueued to Speech Playback in enqueue order,
including the trailing flush, reconstructs exactly the full streamed
response text. -/
theorem c1_segmentation_amended (intr : Bool) (chunks : List String) (st : ConvState)
    (hsafe : flushSafe ("") chunks = true)
    (hfin : strTrim (streamLoop true intr none chunks st ("") ("")).buffer
      = (streamLoop true intr none chunks st ("") ("")).buffer) :
    strConcat (spokenOf (streamAndSpeak true intr false .noAbort chunks st).evs)
      = (streamAndSpeak true intr false .noAbort chunks st).full
    ∧ (streamAndSpeak true intr false .noAbort chunks st).full = strConcat chunks := by
  have hfull := streamLoop_full_none true intr chunks st ("") ("")
  have hab := streamLoop_aborted_none true intr chunks st ("") ("")
  have hex := streamLoop_exact intr chunks st ("") ("") hsafe
  unfold streamAndSpeak
  rw [if_neg (by simp)]
  dsimp only
  by_cases hb : strTrim (streamLoop true intr none chunks st ("") ("")).buffer = ""
  · rw [if_neg (by simp [hb, hab])]
    have hbuf : (streamLoop true intr none chunks st ("") ("")).buffer = "" := by
      rw [← hfin, hb]
    rw [hbuf, strAppend_nil] at hex
    rw [hex, hfull, strNil_append]
    exact ⟨rfl, rfl⟩
  · rw [if_pos (by simp [hb, hab])]
    rw [if_neg (by simp)]
    dsimp only
    rw [spokenOf_append]
    rw [show spokenOf [EV.eff (.enqueueSpeech
        (strTrim (streamLoop true intr none chunks st ("") ("")).buffer))]
      = [strTrim (streamLoop true intr none chunks st ("") ("")).buffer] from rfl]
    rw [strConcat_append]
    rw [show strConcat [strTrim (streamLoop true intr none chunks st ("") ("")).buffer]
      = strTrim (streamLoop true intr none chunks st ("") ("")).buffer from by
        simp [strConcat, strAppend_nil]]
    rw [hfin]
    rw [hex, hfull, strNil_append]
    exact ⟨rfl, rfl⟩

/-- C1 witness: the amended theorem applied to the fragments Yes. and ok —
the first flush is a single front sentence, the trailing buffer ok is already
trimmed, and the reconstruction is exact. -/
theorem c1_segmentation_amended_witness :
    strConcat (spokenOf (streamAndSpeak true false false .noAbort (["Yes.", "ok"]) initState).evs)
      = (streamAndSpeak true false false .noAbort (["Yes.", "ok"]) initState).full :=
  (c1_segmentation_amended false (["Yes.", "ok"]) initState (by decide) (by decide)).1

/-- C6 witness: the merge and sentinel facts applied at concrete inputs —
name extracted as Ann then Anne reads back Anne, a value present in the
extracted details survives the merge, and a turn whose extraction response is
the sentinel leaves the profile of the initial state unchanged. -/
theorem c6_profile_merge_witness :
    objGet (spreadMerge (spreadMerge [] [("name", "Ann")]) [("name", "Anne")]) ("name")
      = some ("Anne") ∧
    objGet (spreadMerge [("age", "9")] [("name", "Ann")]) ("name") = some ("Ann") ∧
    (processUserRequest ("hi")
      ⟨.ok ⟨.SAD, "en"⟩, .ok (), ["Ok."], extractUserDetails ("\x7b\x7d") (.ok none)⟩
      true .never false initState).1.profile = initState.profile :=
  ⟨c6_profile_merge.1 [] ("name") ("Ann") ("Anne"),
   c6_profile_merge.2.1 [("age", "9")] [("name", "Ann")] ("name") ("Ann") (by decide),
   c6_profile_merge.2.2 ("hi") ⟨.SAD, "en"⟩ ["Ok."] ("\x7b\x7d") (.ok none) true false initState
     (by decide) (by decide)⟩

/-! Further helper facts about the pipeline pieces. -/

theorem streamAndSpeak_ab0_true (voice intr : Bool) (sab : StreamAbort)
    (chunks : List String) (st : ConvState) :
    streamAndSpeak voice intr true sab chunks st = ⟨st, [], "", "", true⟩ := by
  unfold streamAndSpeak
  rw [if_pos rfl]

theorem streamAndSpeak_aborted_noAbort (voice intr : Bool) (chunks : List String)
    (st : ConvState) :
    (streamAndSpeak voice intr false .noAbort chunks st).aborted = false := by
  unfold streamAndSpeak
  rw [if_neg (by simp)]
  dsimp only
  split
  · rw [if_neg (by simp)]
    exact streamLoop_aborted_none voice intr chunks st ("") ("")
  · exact streamLoop_aborted_none voice intr chunks st ("") ("")

theorem finallyBlock_false (st : ConvState) :
    finallyBlock st false =
      ({ st with appState := .IDLE, emotion := .NEUTRAL },
       [.eff (.setState .IDLE), .eff (.setEmotionEff .NEUTRAL)]) := by
  unfold finallyBlock
  rw [if_neg (by simp)]

theorem setLastAi_concat (h : List ChatMessage) (x : ChatMessage) (c : String) :
    setLastAi (h ++ [x]) c =
      if x.sender = .ai then (h ++ [{ x with content := c }], true) else (h ++ [x], false) := by
  unfold setLastAi
  rw [List.getLast?_concat]
  dsimp only
  split
  · rw [List.dropLast_concat]
  · rfl

theorem markAct_history (intr : Bool) (st : ConvState) :
    (markAct intr st).1.history = st.history := by
  unfold markAct interruptNow
  split <;> rfl

theorem flushStep_history (voice : Bool) (st : ConvState) (b : String) :
    (flushStep voice st b).st.history = st.history := by
  unfold flushStep
  split
  · split
    · rfl
    · split <;> rfl
  · rfl

/-! C3: fact-extraction failure. -/

/-- C3 counterexample: a turn whose fact-extraction call fails is routed
through the generic catch block of processUserRequest, which sets AppState to
ERROR (and overwrites the last agent Turn with the failure message) — the
Coordinator does enter the ERROR state as a result of the extraction failure,
contradicting the claim.  (The profile is indeed left unchanged.) -/
theorem c3_counterexample :
    EV.eff (.setState .ERROR) ∈
      (processUserRequest ("hi") ⟨.ok ⟨.CALM, "en"⟩, .ok (), ["Ok."], .fail ("boom")⟩
        true .never false initState).2 ∧
    (processUserRequest ("hi") ⟨.ok ⟨.CALM, "en"⟩, .ok (), ["Ok."], .fail ("boom")⟩
        true .never false initState).1.profile = initState.profile := by
  refine ⟨by decide, by decide⟩

/-- C3 amended: when the fact-extraction call of an uninterrupted turn fails,
the UserProfile is left unchanged (no facts this turn), but the failure is
not silent: the generic catch block sets AppState to ERROR (the event log
contains the ERROR transition), after which the finally block resets the
state to IDLE and the emotion to NEUTRAL. -/
theorem c3_extraction_failure_amended (u m : String) (a : InitialAnalysis)
    (chunks : List String) (voice intr : Bool) (st : ConvState) (hu : u ≠ "") :
    (processUserRequest u ⟨.ok a, .ok (), chunks, .fail m⟩ voice .never intr st).1.profile
      = st.profile ∧
    EV.eff (.setState .ERROR)
      ∈ (processUserRequest u ⟨.ok a, .ok (), chunks, .fail m⟩ voice .never intr st).2 ∧
    (processUserRequest u ⟨.ok a, .ok (), chunks, .fail m⟩ voice .never intr st).1.appState
      = .IDLE ∧
    (processUserRequest u ⟨.ok a, .ok (), chunks, .fail m⟩ voice .never intr st).1.emotion
      = .NEUTRAL := by
  refine ⟨processUserRequest_profile u _ voice .never intr st
    (by intro d hd; exact absurd hd (by simp)), ?_, ?_, ?_⟩
  all_goals
    unfold processUserRequest
    rw [if_neg hu]
    dsimp only
    simp only [reduceIte, reduceCtorEq, decide_eq_true_eq, decide_False]
    unfold postStream
    rw [streamAndSpeak_aborted_noAbort]
    simp only [Bool.false_eq_true, reduceIte]
    simp [catchBlock, finallyBlock]

/-- C3 witness: the amended theorem applied at a concrete turn whose
extraction call fails. -/
theorem c3_extraction_failure_amended_witness :
    (processUserRequest ("hi") ⟨.ok ⟨.CALM, "en"⟩, .ok (), ["Ok."], .fail ("boom")⟩
        true .never false initState).1.profile = initState.profile ∧
    EV.eff (.setState .ERROR) ∈
      (processUserRequest ("hi") ⟨.ok ⟨.CALM, "en"⟩, .ok (), ["Ok."], .fail ("boom")⟩
        true .never false initState).2 ∧
    (processUserRequest ("hi") ⟨.ok ⟨.CALM, "en"⟩, .ok (), ["Ok."], .fail ("boom")⟩
        true .never false initState).1.appState = .IDLE ∧
    (processUserRequest ("hi") ⟨.ok ⟨.CALM, "en"⟩, .ok (), ["Ok."], .fail ("boom")⟩
        true .never false initState).1.emotion = .NEUTRAL :=
  c3_extraction_failure_amended ("hi") ("boom") ⟨.CALM, "en"⟩ ["Ok."] true false initState
    (by decide)

/-! C4: surfacing of Language Intelligence failures. -/

/-- C4 counterexample: when the classification call fails before the agent
placeholder was appended, the catch block finds the user Turn as the last
message and writes nothing — no placeholder agent Turn is created and the
failure's user-facing message never reaches the Transcript, contradicting
the claim that a placeholder is created first; the state does pass through
ERROR (and the finally block then resets it to IDLE). -/
theorem c4_counterexample :
    (processUserRequest ("hi") ⟨.fail ("bad"), .ok (), [], .ok none⟩
        true .never false initState).1.history = [⟨.user, "hi", none⟩] ∧
    EV.eff (.setState .ERROR) ∈
      (processUserRequest ("hi") ⟨.fail ("bad"), .ok (), [], .ok none⟩
        true .never false initState).2 := by
  refine ⟨by decide, by decide⟩

/-- C4 amended: on a Language Intelligence failure the raw exception is
caught at the coordinator boundary (the run function is total and only
mutates the conversation state), AppState passes through ERROR, and the
failure's user-facing message is written into the last Turn only when that
Turn is an agent Turn: a streaming failure after the placeholder was appended
writes the message into the placeholder, but a classification failure leaves
the Transcript ending with the untouched user Turn — no placeholder is
created and the message is not recorded.  The finally block then resets the
state to IDLE. -/
theorem c4_failure_surface_amended (u m : String) (a : InitialAnalysis)
    (chunks : List String) (ext : LIOutcome (Option (List (String × String))))
    (voice intr : Bool) (st : ConvState) (hu : u ≠ "") :
    ((processUserRequest u ⟨.fail m, .ok (), chunks, ext⟩ voice .never intr st).1.history
        = st.history ++ [⟨.user, u, none⟩] ∧
      EV.eff (.setState .ERROR)
        ∈ (processUserRequest u ⟨.fail m, .ok (), chunks, ext⟩ voice .never intr st).2 ∧
      (processUserRequest u ⟨.fail m, .ok (), chunks, ext⟩ voice .never intr st).1.appState
        = .IDLE) ∧
    ((processUserRequest u ⟨.ok a, .fail m, chunks, ext⟩ voice .never intr st).1.history
        = st.history ++ [⟨.user, u, none⟩, ⟨.ai, errorFallback m, some a.emotion⟩] ∧
      EV.eff (.setState .ERROR)
        ∈ (processUserRequest u ⟨.ok a, .fail m, chunks, ext⟩ voice .never intr st).2 ∧
      (processUserRequest u ⟨.ok a, .fail m, chunks, ext⟩ voice .never intr st).1.appState
        = .IDLE) := by
  constructor
  · refine ⟨?_, ?_, ?_⟩
    all_goals
      unfold processUserRequest
      rw [if_neg hu]
      dsimp only
      simp only [reduceIte, reduceCtorEq, decide_eq_true_eq, decide_False]
      unfold catchBlock
      rw [setLastAi_concat]
      simp [finallyBlock]
  · refine ⟨?_, ?_, ?_⟩
    all_goals
      unfold processUserRequest
      rw [if_neg hu]
      dsimp only
      simp only [reduceIte, reduceCtorEq, decide_eq_true_eq, decide_False]
      unfold catchBlock
      rw [setLastAi_concat]
      simp [finallyBlock, List.append_assoc]

/-- C4 witness: the amended theorem applied at a concrete failing
classification and a concrete failing stream start. -/
theorem c4_failure_surface_amended_witness :
    (processUserRequest ("hi") ⟨.fail ("bad"), .ok (), [], .ok none⟩
        true .never false initState).1.history = initState.history ++ [⟨.user, "hi", none⟩] ∧
    (processUserRequest ("hi") ⟨.ok ⟨.SAD, "en"⟩, .fail ("bad"), [], .ok none⟩
        true .never false initState).1.history
      = initState.history ++ [⟨.user, "hi", none⟩, ⟨.ai, errorFallback ("bad"), some .SAD⟩] :=
  ⟨(c4_failure_surface_amended ("hi") ("bad") ⟨.SAD, "en"⟩ [] (.ok none) true false initState
      (by decide)).1.1,
   (c4_failure_surface_amended ("hi") ("bad") ⟨.SAD, "en"⟩ [] (.ok none) true false initState
      (by decide)).2.1⟩

/-! C5: the Transcript after a cancelled turn. -/

theorem streamLoop_some0 (voice intr : Bool) (chunks : List String) (st : ConvState)
    (full buf : String) :
    streamLoop voice intr (some 0) chunks st full buf
      = ⟨(markAct intr st).1, (markAct intr st).2, full, buf, true⟩ := by
  cases chunks <;> (conv_lhs => simp only [streamLoop]) <;> rw [if_pos trivial]

theorem streamLoop_cons_somepos (voice intr : Bool) (n : Nat) (c : String)
    (rest : List String) (st : ConvState) (full buf : String) :
    streamLoop voice intr (some (n + 1)) (c :: rest) st full buf =
      (let full1 := full ++ c
       let e1 : List EV :=
         if (setLastAi st.history full1).2 then [.eff (.updateLastAi full1)] else []
       let fo := flushStep voice { st with history := (setLastAi st.history full1).1 } (buf ++ c)
       let r := streamLoop voice intr (some n) rest fo.st full1 fo.buffer
       ⟨r.st, e1 ++ fo.evs ++ r.evs, r.full, r.buffer, r.aborted⟩) := by
  conv_lhs => simp only [streamLoop]
  rw [if_neg (by simp)]
  rfl

theorem streamLoop_atLen (voice intr : Bool) (pre : List String) :
    ∀ (rest : List String) (st : ConvState) (base : List ChatMessage) (e : Option Emotion)
      (full buf : String),
    st.history = base ++ [⟨.ai, full, e⟩] →
    (streamLoop voice intr (some pre.length) (pre ++ rest) st full buf).st.history
        = base ++ [⟨.ai, full ++ strConcat pre, e⟩] ∧
    (streamLoop voice intr (some pre.length) (pre ++ rest) st full buf).aborted = true := by
  induction pre with
  | nil =>
      intro rest st base e full buf hh
      rw [show (([] : List String)).length = 0 from rfl,
          show ([] : List String) ++ rest = rest from rfl]
      rw [streamLoop_some0]
      dsimp only
      rw [markAct_history, hh]
      exact ⟨by simp [strConcat, strAppend_nil], rfl⟩
  | cons c pre1 ih =>
      intro rest st base e full buf hh
      rw [show ((c :: pre1) ++ rest) = c :: (pre1 ++ rest) from rfl,
          show (c :: pre1).length = pre1.length + 1 from rfl]
      rw [streamLoop_cons_somepos]
      dsimp only
      have hset : setLastAi st.history (full ++ c)
          = (base ++ [⟨.ai, full ++ c, e⟩], true) := by
        rw [hh, setLastAi_concat]
        rfl
      rw [hset]
      dsimp only
      have hfh : (flushStep voice
          { st with history := (base ++ [⟨.ai, full ++ c, e⟩] : List ChatMessage) }
          (buf ++ c)).st.history = base ++ [(⟨.ai, full ++ c, e⟩ : ChatMessage)] := by
        rw [flushStep_history]
      obtain ⟨ih1, ih2⟩ := ih (rest) _ base e (full ++ c) _ hfh
      refine ⟨?_, ih2⟩
      rw [ih1]
      simp [strConcat, strAppend_assoc]

theorem cleanupFilter_append (emo : Emotion) (h1 h2 : List ChatMessage) :
    cleanupFilter emo (h1 ++ h2) = cleanupFilter emo h1 ++ cleanupFilter emo h2 := by
  unfold cleanupFilter
  exact List.filter_append h1 h2

theorem cleanupFilter_single_keep (emo : Emotion) (m : ChatMessage)
    (h : ¬(m.content = "" ∧ m.sender = .ai ∧ m.detectedEmotion = some emo)) :
    cleanupFilter emo [m] = [m] := by
  simp [cleanupFilter]
  tauto

theorem cleanupFilter_single_drop (emo : Emotion) (m : ChatMessage)
    (h : m.content = "" ∧ m.sender = .ai ∧ m.detectedEmotion = some emo) :
    cleanupFilter emo [m] = [] := by
  simp [cleanupFilter, h]

/-- C5 counterexample: an earlier turn whose stream produced no fragments
completes and leaves an empty agent Turn tagged SAD in the Transcript; the
next turn (classified NEUTRAL) is cancelled before any fragment arrives.
The cleanup filter only removes empty agent messages tagged with the current
turn's emotion, so the stale empty SAD agent Turn is still in the Transcript
afterward — contradicting the claim that after a cancellation before any
fragment the Transcript contains no empty agent Turn. -/
theorem c5_counterexample :
    (processUserRequest ("b") ⟨.ok ⟨.NEUTRAL, "en-US"⟩, .ok (), ["x"], .ok none⟩ true
        (.atChunk 0) false
        (processUserRequest ("a") ⟨.ok ⟨.SAD, "en-US"⟩, .ok (), [], .ok none⟩ true
          .never false initState).1).1.history
      = [⟨.user, "a", none⟩, ⟨.ai, "", some .SAD⟩, ⟨.user, "b", none⟩] ∧
    (⟨.ai, "", some .SAD⟩ : ChatMessage) ∈
      (processUserRequest ("b") ⟨.ok ⟨.NEUTRAL, "en-US"⟩, .ok (), ["x"], .ok none⟩ true
        (.atChunk 0) false
        (processUserRequest ("a") ⟨.ok ⟨.SAD, "en-US"⟩, .ok (), [], .ok none⟩ true
          .never false initState).1).1.history := by
  refine ⟨by decide, by decide⟩

/-- C5 amended: for a turn cancelled while awaiting the first fragment, the
Transcript afterwards is the prior Transcript with every empty agent Turn
tagged with this turn's detected emotion removed (in particular the turn's
own placeholder), followed by the new user Turn — empty agent Turns from
earlier turns carrying a different emotion survive.  For a turn cancelled
after fragments with non-empty concatenation arrived, the Transcript ends
with the user Turn and an agent Turn showing exactly the partial text
received before cancellation (prior empty agent Turns with this emotion are
again removed). -/
theorem c5_cancelled_turn_amended (u : String) (a : InitialAnalysis)
    (ext : LIOutcome (Option (List (String × String)))) (voice intr : Bool)
    (st : ConvState) (hu : u ≠ "") :
    (∀ chunks : List String,
      (processUserRequest u ⟨.ok a, .ok (), chunks, ext⟩ voice (.atChunk 0) intr st).1.history
        = cleanupFilter a.emotion st.history ++ [⟨.user, u, none⟩]) ∧
    (∀ pre rest : List String, strConcat pre ≠ "" →
      (processUserRequest u ⟨.ok a, .ok (), pre ++ rest, ext⟩ voice
          (.atChunk pre.length) intr st).1.history
        = cleanupFilter a.emotion st.history
            ++ [⟨.user, u, none⟩, ⟨.ai, strConcat pre, some a.emotion⟩]) := by
  constructor
  · intro chunks
    unfold processUserRequest
    rw [if_neg hu]
    dsimp only
    simp only [reduceIte, reduceCtorEq, decide_eq_true_eq, decide_False]
    unfold streamAndSpeak
    simp only [Bool.false_eq_true, reduceIte]
    rw [streamLoop_some0]
    dsimp only
    rw [if_neg (by simp)]
    unfold postStream
    simp only [reduceIte]
    rw [markAct_history]
    dsimp only
    rw [cleanupFilter_append, cleanupFilter_append]
    rw [cleanupFilter_single_keep a.emotion ⟨.user, u, none⟩ (by intro hc; exact absurd hc.2.1 (by simp))]
    rw [cleanupFilter_single_drop a.emotion ⟨.ai, "", some a.emotion⟩ ⟨rfl, rfl, rfl⟩]
    simp
  · intro pre rest hpre
    unfold processUserRequest
    rw [if_neg hu]
    dsimp only
    simp only [reduceIte, reduceCtorEq, decide_eq_true_eq, decide_False]
    unfold streamAndSpeak
    simp only [Bool.false_eq_true, reduceIte]
    obtain ⟨hh, hab⟩ := streamLoop_atLen voice intr pre rest
      { appState := .SPEAKING, emotion := a.emotion,
        history := st.history ++ [⟨.user, u, none⟩] ++ [⟨.ai, "", some a.emotion⟩],
        profile := st.profile, speechQueue := st.speechQueue }
      (st.history ++ [⟨.user, u, none⟩]) (some a.emotion) ("") ("") rfl
    rw [hab]
    rw [if_neg (by simp)]
    unfold postStream
    rw [hab]
    simp only [reduceIte]
    rw [hh, strNil_append]
    rw [cleanupFilter_append, cleanupFilter_append]
    rw [cleanupFilter_single_keep a.emotion ⟨.user, u, none⟩ (by intro hc; exact absurd hc.2.1 (by simp))]
    rw [cleanupFilter_single_keep a.emotion ⟨.ai, strConcat pre, some a.emotion⟩
      (by intro hc; exact absurd hc.1 hpre)]
    simp

/-- C5 witness: the amended theorem applied to a prior Transcript holding one
message, once for a cancellation before any fragment and once for a
cancellation after the fragment Hey. arrived. -/
theorem c5_cancelled_turn_amended_witness :
    (processUserRequest ("b") ⟨.ok ⟨.NEUTRAL, "en"⟩, .ok (), ["x"], .ok none⟩ true
        (.atChunk 0) false initState).1.history
      = cleanupFilter .NEUTRAL initState.history ++ [⟨.user, "b", none⟩] ∧
    (processUserRequest ("b") ⟨.ok ⟨.NEUTRAL, "en"⟩, .ok (), ["Hey."] ++ [], .ok none⟩ true
        (.atChunk (["Hey."]).length) false initState).1.history
      = cleanupFilter .NEUTRAL initState.history
          ++ [⟨.user, "b", none⟩, ⟨.ai, strConcat ["Hey."], some .NEUTRAL⟩] :=
  ⟨(c5_cancelled_turn_amended ("b") ⟨.NEUTRAL, "en"⟩ (.ok none) true false initState
      (by decide)).1 ["x"],
   (c5_cancelled_turn_amended ("b") ⟨.NEUTRAL, "en"⟩ (.ok none) true false initState
      (by decide)).2 ["Hey."] [] (by decide)⟩

/-! Facts about the abort-signal position in the event log. -/

theorem dropWhile_append_all {α : Type} (p : α → Bool) (xs ys : List α)
    (h : xs.all p = true) : (xs ++ ys).dropWhile p = ys.dropWhile p := by
  induction xs with
  | nil => rfl
  | cons a t ih =>
      rw [List.all_cons, Bool.and_eq_true] at h
      rw [List.cons_append, List.dropWhile_cons_of_pos h.1]
      exact ih h.2

theorem afterMark_append_notmark (xs ys : List EV)
    (h : xs.all (fun e => !isMark e) = true) : afterMark (xs ++ ys) = afterMark ys := by
  unfold afterMark
  rw [dropWhile_append_all _ xs ys h]

theorem afterMark_mark_cons (tail : List EV) : afterMark (EV.mark :: tail) = tail := by
  unfold afterMark
  rw [List.dropWhile_cons_of_neg (by simp [isMark])]
  rfl

theorem markAct_evs (intr : Bool) (st : ConvState) :
    (markAct intr st).2 = EV.mark ::
      (if intr then
        [EV.eff .speechCancel, EV.eff (.setState .IDLE), EV.eff (.setEmotionEff .NEUTRAL)]
       else []) := by
  unfold markAct interruptNow
  split <;> rfl

theorem afterMark_append_cases (xs ys : List EV) :
    afterMark (xs ++ ys) = afterMark xs ++ ys ∨ afterMark (xs ++ ys) = afterMark ys := by
  induction xs with
  | nil => right; rfl
  | cons a t ih =>
      cases ha : isMark a with
      | true =>
          left
          cases a with
          | mark => rw [List.cons_append, afterMark_mark_cons, afterMark_mark_cons]
          | eff e => simp [isMark] at ha
      | false =>
          have h1 : afterMark ((a :: t) ++ ys) = afterMark (t ++ ys) := by
            unfold afterMark
            rw [List.cons_append, List.dropWhile_cons_of_pos (by simp [ha])]
          have h2 : afterMark (a :: t) = afterMark t := by
            unfold afterMark
            rw [List.dropWhile_cons_of_pos (by simp [ha])]
          rw [h1, h2]
          exact ih

theorem afterMark_sublist (l : List EV) : (afterMark l).Sublist l :=
  (List.tail_sublist _).trans (List.dropWhile_sublist _)

theorem sef_sublist {l1 l : List EV} (h : l1.Sublist l)
    (hl : sessionEffectFree l = true) : sessionEffectFree l1 = true := by
  unfold sessionEffectFree at *
  rw [List.all_eq_true] at *
  intro x hx
  exact hl x (h.subset hx)

theorem sef_afterMark_append (xs ys : List EV)
    (h1 : sessionEffectFree (afterMark xs) = true)
    (h2 : sessionEffectFree ys = true) :
    sessionEffectFree (afterMark (xs ++ ys)) = true := by
  cases afterMark_append_cases xs ys with
  | inl h =>
      rw [h]
      unfold sessionEffectFree at *
      rw [List.all_append, h1, h2]
      rfl
  | inr h =>
      rw [h]
      exact sef_sublist (afterMark_sublist ys) h2

theorem flushStep_notMark (voice : Bool) (st : ConvState) (b : String) :
    ((flushStep voice st b).evs).all (fun e => !isMark e) = true := by
  unfold flushStep
  split
  · split
    · rfl
    · split <;> rfl
  · rfl

theorem flushStep_noExtract (voice : Bool) (st : ConvState) (b : String) :
    noExtractCall (flushStep voice st b).evs = true := by
  unfold flushStep
  split
  · split
    · rfl
    · split <;> rfl
  · rfl

theorem sef_afterMark_markAct (intr : Bool) (st : ConvState) :
    sessionEffectFree (afterMark ((markAct intr st).2)) = true := by
  rw [markAct_evs, afterMark_mark_cons]
  cases intr <;> rfl

theorem markAct_sef (intr : Bool) (st : ConvState) :
    sessionEffectFree (markAct intr st).2 = true := by
  unfold markAct interruptNow
  split <;> rfl

theorem catchBlock_sef (st : ConvState) (m : String) :
    sessionEffectFree (catchBlock st m).2 = true := by
  unfold catchBlock
  dsimp only
  split <;> rfl

theorem finallyBlock_sef (st : ConvState) (b : Bool) :
    sessionEffectFree (finallyBlock st b).2 = true := by
  unfold finallyBlock
  split <;> rfl

theorem noExtract_append (xs ys : List EV) :
    noExtractCall (xs ++ ys) = (noExtractCall xs && noExtractCall ys) := by
  unfold noExtractCall
  exact List.all_append

theorem markAct_noExtract (intr : Bool) (st : ConvState) :
    noExtractCall (markAct intr st).2 = true := by
  unfold markAct interruptNow
  split <;> rfl

theorem catchBlock_noExtract (st : ConvState) (m : String) :
    noExtractCall (catchBlock st m).2 = true := by
  unfold catchBlock
  dsimp only
  split <;> rfl

theorem finallyBlock_noExtract (st : ConvState) (b : Bool) :
    noExtractCall (finallyBlock st b).2 = true := by
  unfold finallyBlock
  split <;> rfl

theorem streamLoop_aborted_le (voice intr : Bool) (chunks : List String) :
    ∀ (i : Nat) (st : ConvState) (full buf : String), i ≤ chunks.length →
    (streamLoop voice intr (some i) chunks st full buf).aborted = true := by
  induction chunks with
  | nil =>
      intro i st full buf hle
      have hi := Nat.le_zero.mp hle
      subst hi
      rw [streamLoop_some0]
  | cons c rest ih =>
      intro i st full buf hle
      cases i with
      | zero => rw [streamLoop_some0]
      | succ n =>
          rw [streamLoop_cons_somepos]
          dsimp only
          exact ih n _ _ _ (Nat.le_of_succ_le_succ hle)

theorem streamLoop_sef_afterMark (voice intr : Bool) (chunks : List String) :
    ∀ (i : Nat) (st : ConvState) (full buf : String), i ≤ chunks.length →
    sessionEffectFree (afterMark (streamLoop voice intr (some i) chunks st full buf).evs)
      = true := by
  induction chunks with
  | nil =>
      intro i st full buf hle
      have hi := Nat.le_zero.mp hle
      subst hi
      rw [streamLoop_some0]
      exact sef_afterMark_markAct intr st
  | cons c rest ih =>
      intro i st full buf hle
      cases i with
      | zero =>
          rw [streamLoop_some0]
          exact sef_afterMark_markAct intr st
      | succ n =>
          rw [streamLoop_cons_somepos]
          dsimp only
          rw [afterMark_append_notmark]
          · exact ih n _ _ _ (Nat.le_of_succ_le_succ hle)
          · rw [List.all_append, Bool.and_eq_true]
            exact ⟨by split <;> rfl, flushStep_notMark _ _ _⟩

theorem streamLoop_noExtract (voice intr : Bool) (chunks : List String) :
    ∀ (ab : Option Nat) (st : ConvState) (full buf : String),
    noExtractCall (streamLoop voice intr ab chunks st full buf).evs = true := by
  induction chunks with
  | nil =>
      intro ab st full buf
      unfold streamLoop
      split
      · exact markAct_noExtract intr st
      · rfl
  | cons c rest ih =>
      intro ab st full buf
      unfold streamLoop
      split
      · exact markAct_noExtract intr st
      · dsimp only
        rw [noExtract_append, noExtract_append, Bool.and_eq_true, Bool.and_eq_true]
        refine ⟨⟨by split <;> rfl, flushStep_noExtract _ _ _⟩, ih _ _ _ _⟩

theorem streamAndSpeak_atChunk (voice intr : Bool) (chunks : List String) (i : Nat)
    (st : ConvState) (hle : i ≤ chunks.length) :
    streamAndSpeak voice intr false (.atChunk i) chunks st
      = streamLoop voice intr (some i) chunks st ("") ("") := by
  unfold streamAndSpeak
  rw [if_neg (by simp)]
  dsimp only
  rw [streamLoop_aborted_le voice intr chunks i st ("") ("") hle]
  rw [if_neg (by simp)]

theorem noExtract_append_intro (xs ys : List EV) (h1 : noExtractCall xs = true)
    (h2 : noExtractCall ys = true) : noExtractCall (xs ++ ys) = true := by
  rw [noExtract_append, h1, h2]
  rfl

/-! C2: starting a second turn while one is in flight. -/

/-- C2 counterexample: in the event log of a turn whose abort signal arrives
while it awaits classification (the moment a second submitText aborts it),
the first three events are the THINKING transition, the user-Turn append and
only then the abort of the prior session — the new turn mutates state before
cancelling the old session; and after the abort signal the first session
still appends its placeholder agent Turn, a transcript write occurring after
the second session has started.  Both parts of the claim fail. -/
theorem c2_counterexample :
    (processUserRequest ("u1") ⟨.ok ⟨.NEUTRAL, "en-US"⟩, .ok (), ["x"], .ok none⟩ true
        .duringClassify false initState).2.take 3
      = [.eff (.setState .THINKING), .eff (.appendUser ("u1")), .eff .abortPrev] ∧
    EV.eff (.appendPlaceholder .NEUTRAL) ∈
      afterMark ((processUserRequest ("u1") ⟨.ok ⟨.NEUTRAL, "en-US"⟩, .ok (), ["x"], .ok none⟩
        true .duringClassify false initState).2) := by
  refine ⟨by decide, by decide⟩

/-- C2 amended: starting a turn always emits the THINKING transition and the
user-Turn append before aborting the prior session's controller (the abort is
the third event, not the first), and a first session whose abort signal
arrives while it awaits classification, stream start, or a stream fragment
performs no speech enqueue, no fact-extraction call and no profile merge
after the signal — though it may still write its placeholder agent Turn, set
the detected emotion and touch AppState before noticing the flag. -/
theorem c2_cancellation_amended (u : String) (an : LIOutcome InitialAnalysis)
    (ss : LIOutcome Unit) (chs : List String)
    (ext : LIOutcome (Option (List (String × String)))) (voice intr : Bool)
    (ap : AbortPoint) (st : ConvState) (hu : u ≠ "") :
    (processUserRequest u ⟨an, ss, chs, ext⟩ voice ap intr st).2.take 3
      = [.eff (.setState .THINKING), .eff (.appendUser u), .eff .abortPrev] ∧
    (ap = .duringClassify ∨ ap = .duringStreamStart ∨
        (∃ i, ap = .atChunk i ∧ i ≤ chs.length) →
      sessionEffectFree
        (afterMark (processUserRequest u ⟨an, ss, chs, ext⟩ voice ap intr st).2) = true) := by
  constructor
  · unfold processUserRequest
    rw [if_neg hu]
    dsimp only
    cases an with
    | fail m => rfl
    | ok a =>
        cases ss with
        | fail m => rfl
        | ok uu => rfl
  · intro hap
    rcases hap with hap | hap | ⟨i, hap, hle⟩ <;> subst hap <;>
      (unfold processUserRequest
       rw [if_neg hu]
       dsimp only
       simp only [reduceIte, reduceCtorEq, decide_eq_true_eq, decide_False, decide_True])
    · cases an with
      | fail m =>
          repeat'
            first
              | rfl
              | exact catchBlock_sef _ _
              | exact finallyBlock_sef _ _
              | exact markAct_sef _ _
              | apply sef_afterMark_append
      | ok a =>
          cases ss with
          | fail m =>
              repeat'
                first
                  | rfl
                  | exact catchBlock_sef _ _
                  | exact finallyBlock_sef _ _
                  | exact markAct_sef _ _
                  | apply sef_afterMark_append
          | ok uu =>
              dsimp only
              rw [streamAndSpeak_ab0_true]
              unfold postStream
              dsimp only
              simp only [reduceIte]
              repeat'
                first
                  | rfl
                  | exact catchBlock_sef _ _
                  | exact finallyBlock_sef _ _
                  | exact markAct_sef _ _
                  | apply sef_afterMark_append
    · cases an with
      | fail m =>
          repeat'
            first
              | rfl
              | exact catchBlock_sef _ _
              | exact finallyBlock_sef _ _
              | exact markAct_sef _ _
              | apply sef_afterMark_append
      | ok a =>
          cases ss with
          | fail m =>
              repeat'
                first
                  | rfl
                  | exact catchBlock_sef _ _
                  | exact finallyBlock_sef _ _
                  | exact markAct_sef _ _
                  | apply sef_afterMark_append
          | ok uu =>
              dsimp only
              rw [streamAndSpeak_ab0_true]
              unfold postStream
              dsimp only
              simp only [reduceIte]
              repeat'
                first
                  | rfl
                  | exact catchBlock_sef _ _
                  | exact finallyBlock_sef _ _
                  | exact markAct_sef _ _
                  | apply sef_afterMark_append
    · cases an with
      | fail m =>
          repeat'
            first
              | rfl
              | exact catchBlock_sef _ _
              | exact finallyBlock_sef _ _
              | exact markAct_sef _ _
              | apply sef_afterMark_append
      | ok a =>
          cases ss with
          | fail m =>
              repeat'
                first
                  | rfl
                  | exact catchBlock_sef _ _
                  | exact finallyBlock_sef _ _
                  | exact markAct_sef _ _
                  | apply sef_afterMark_append
          | ok uu =>
              dsimp only
              rw [streamAndSpeak_atChunk voice intr chs i _ hle]
              unfold postStream
              dsimp only
              rw [streamLoop_aborted_le voice intr chs i _ ("") ("") hle]
              simp only [reduceIte]
              apply sef_afterMark_append
              · rw [afterMark_append_notmark _ _ (by rfl)]
                exact streamLoop_sef_afterMark voice intr chs i _ ("") ("") hle
              · rfl

/-- C2 witness: the amended theorem applied to a concrete turn whose abort
signal arrives while classification is pending. -/
theorem c2_cancellation_amended_witness :
    (processUserRequest ("hi") ⟨.ok ⟨.SAD, "en"⟩, .ok (), ["x"], .ok none⟩ true
        .duringClassify false initState).2.take 3
      = [.eff (.setState .THINKING), .eff (.appendUser ("hi")), .eff .abortPrev] ∧
    sessionEffectFree
      (afterMark ((processUserRequest ("hi") ⟨.ok ⟨.SAD, "en"⟩, .ok (), ["x"], .ok none⟩ true
        .duringClassify false initState).2)) = true :=
  ⟨(c2_cancellation_amended ("hi") (.ok ⟨.SAD, "en"⟩) (.ok ()) ["x"] (.ok none) true false
      .duringClassify initState (by decide)).1,
   (c2_cancellation_amended ("hi") (.ok ⟨.SAD, "en"⟩) (.ok ()) ["x"] (.ok none) true false
      .duringClassify initState (by decide)).2 (Or.inl rfl)⟩

/-! C8: the interrupt control. -/

/-- C8 counterexample: the interrupt lands while the coordinator awaits the
fact-extraction call — AppState is still SPEAKING at that moment (the events
before the abort signal end with the SPEAKING transition, the fragment
processing and the extraction call) — so a fact-extraction call has occurred
for this turn even though the interrupt arrived while SPEAKING, and the
extraction result is even merged into the profile after the interrupt. -/
theorem c8_counterexample :
    beforeMark ((processUserRequest ("hi")
        ⟨.ok ⟨.JOYFUL, "en-US"⟩, .ok (), ["Nice day."], .ok (some [("k", "v")])⟩ true
        .duringExtraction true initState).2)
      = [.eff (.setState .THINKING), .eff (.appendUser ("hi")), .eff .abortPrev,
         .eff (.callClassify ("hi")), .eff (.setEmotionEff .JOYFUL),
         .eff (.appendPlaceholder .JOYFUL), .eff (.callStream ("hi")),
         .eff (.setState .SPEAKING), .eff (.updateLastAi ("Nice day.")),
         .eff (.enqueueSpeech ("Nice day.")), .eff (.callExtract ("hi"))] ∧
    EV.eff (.callExtract ("hi")) ∈
      (processUserRequest ("hi")
        ⟨.ok ⟨.JOYFUL, "en-US"⟩, .ok (), ["Nice day."], .ok (some [("k", "v")])⟩ true
        .duringExtraction true initState).2 ∧
    EV.eff (.mergeProfileEff [("k", "v")]) ∈
      afterMark ((processUserRequest ("hi")
        ⟨.ok ⟨.JOYFUL, "en-US"⟩, .ok (), ["Nice day."], .ok (some [("k", "v")])⟩ true
        .duringExtraction true initState).2) ∧
    (processUserRequest ("hi")
        ⟨.ok ⟨.JOYFUL, "en-US"⟩, .ok (), ["Nice day."], .ok (some [("k", "v")])⟩ true
        .duringExtraction true initState).1.profile = [("k", "v")] := by
  refine ⟨by decide, by decide, by decide, by decide⟩

/-- C8 amended: while the coordinator is THINKING or SPEAKING, the interrupt
control synchronously empties the Speech Playback queue and forces AppState
to IDLE and the emotion to NEUTRAL; and when the interrupt's abort signal
arrives while the session awaits classification, the stream start, or a
stream fragment, no fact-extraction call occurs at all for that turn.  (If
the signal instead arrives while the extraction call is already in flight,
that call has already been issued and its result is still merged.) -/
theorem c8_interrupt_amended :
    (∀ (st : ConvState) (cap : CaptureState), isProcessingState st.appState = true →
      handleMicClick st cap
        = ({ st with speechQueue := [], appState := .IDLE, emotion := .NEUTRAL }, cap,
           [.eff .speechCancel, .eff (.setState .IDLE), .eff (.setEmotionEff .NEUTRAL)])) ∧
    (∀ (u : String) (an : LIOutcome InitialAnalysis) (ss : LIOutcome Unit)
      (chs : List String) (ext : LIOutcome (Option (List (String × String))))
      (voice intr : Bool) (ap : AbortPoint) (st : ConvState), u ≠ "" →
      (ap = .duringClassify ∨ ap = .duringStreamStart ∨
        (∃ i, ap = .atChunk i ∧ i ≤ chs.length)) →
      noExtractCall (processUserRequest u ⟨an, ss, chs, ext⟩ voice ap intr st).2 = true) := by
  constructor
  · intro st cap h
    unfold handleMicClick interruptNow
    rw [if_pos h]
  · intro u an ss chs ext voice intr ap st hu hap
    rcases hap with hap | hap | ⟨i, hap, hle⟩ <;> subst hap <;>
      (unfold processUserRequest
       rw [if_neg hu]
       dsimp only
       simp only [reduceIte, reduceCtorEq, decide_eq_true_eq, decide_False, decide_True])
    · cases an with
      | fail m =>
          repeat'
            first
              | rfl
              | exact catchBlock_noExtract _ _
              | exact finallyBlock_noExtract _ _
              | exact markAct_noExtract _ _
              | apply noExtract_append_intro
      | ok a =>
          cases ss with
          | fail m =>
              repeat'
                first
                  | rfl
                  | exact catchBlock_noExtract _ _
                  | exact finallyBlock_noExtract _ _
                  | exact markAct_noExtract _ _
                  | apply noExtract_append_intro
          | ok uu =>
              dsimp only
              rw [streamAndSpeak_ab0_true]
              unfold postStream
              dsimp only
              simp only [reduceIte]
              repeat'
                first
                  | rfl
                  | exact catchBlock_noExtract _ _
                  | exact finallyBlock_noExtract _ _
                  | exact markAct_noExtract _ _
                  | apply noExtract_append_intro
    · cases an with
      | fail m =>
          repeat'
            first
              | rfl
              | exact catchBlock_noExtract _ _
              | exact finallyBlock_noExtract _ _
              | exact markAct_noExtract _ _
              | apply noExtract_append_intro
      | ok a =>
          cases ss with
          | fail m =>
              repeat'
                first
                  | rfl
                  | exact catchBlock_noExtract _ _
                  | exact finallyBlock_noExtract _ _
                  | exact markAct_noExtract _ _
                  | apply noExtract_append_intro
          | ok uu =>
              dsimp only
              rw [streamAndSpeak_ab0_true]
              unfold postStream
              dsimp only
              simp only [reduceIte]
              repeat'
                first
                  | rfl
                  | exact catchBlock_noExtract _ _
                  | exact finallyBlock_noExtract _ _
                  | exact markAct_noExtract _ _
                  | apply noExtract_append_intro
    · cases an with
      | fail m =>
          repeat'
            first
              | rfl
              | exact catchBlock_noExtract _ _
              | exact finallyBlock_noExtract _ _
              | exact markAct_noExtract _ _
              | apply noExtract_append_intro
      | ok a =>
          cases ss with
          | fail m =>
              repeat'
                first
                  | rfl
                  | exact catchBlock_noExtract _ _
                  | exact finallyBlock_noExtract _ _
                  | exact markAct_noExtract _ _
                  | apply noExtract_append_intro
          | ok uu =>
              dsimp only
              rw [streamAndSpeak_atChunk voice intr chs i _ hle]
              unfold postStream
              dsimp only
              rw [streamLoop_aborted_le voice intr chs i _ ("") ("") hle]
              simp only [reduceIte]
              repeat'
                first
                  | rfl
                  | exact markAct_noExtract _ _
                  | exact streamLoop_noExtract _ _ _ _ _ ("") ("")
                  | apply noExtract_append_intro

/-- C8 witness: the amended theorem applied while SPEAKING with a concrete
capture state, and to a concrete turn whose interrupt lands while awaiting
the first stream fragment. -/
theorem c8_interrupt_amended_witness :
    handleMicClick ⟨.SPEAKING, .JOYFUL, [], [], ["x"]⟩ ⟨"", "", false⟩
      = (⟨.IDLE, .NEUTRAL, [], [], []⟩, ⟨"", "", false⟩,
         [.eff .speechCancel, .eff (.setState .IDLE), .eff (.setEmotionEff .NEUTRAL)]) ∧
    noExtractCall ((processUserRequest ("hi") ⟨.ok ⟨.SAD, "en"⟩, .ok (), ["x"], .ok none⟩ true
        (.atChunk 0) true initState).2) = true :=
  ⟨c8_interrupt_amended.1 ⟨.SPEAKING, .JOYFUL, [], [], ["x"]⟩ ⟨"", "", false⟩ (by decide),
   c8_interrupt_amended.2 ("hi") (.ok ⟨.SAD, "en"⟩) (.ok ()) ["x"] (.ok none) true true
     (.atChunk 0) initState (by decide) (Or.inr (Or.inr ⟨0, rfl, by decide⟩))⟩

end Synapse
